import Mathlib

/-!
Verification of the geolocation migration script
(src/geolocation-migration-script.py).

The script resolves hierarchical location attributes
(province → city → district → sub_district) from a fact table, or from
static override values, against the master table indonesia_boundaries,
and inserts resolved identifiers into a geo_ref table.

This file gives a shallow embedding of the script's logic: Python rows
become functions from column names / hierarchy levels to optional
strings, databases become lists of rows, and each fallible external
operation (query execution, DDL, per-row insert) is parametrised by a
failure oracle so that the script's error-handling paths can be stated
and proved.
-/

namespace GeoMigration

/-- The four hierarchy levels, in significance order (province most
significant).  Mirrors the `hierarchy` list at line 330 of the script. -/
inductive Level where
  | province
  | city
  | district
  | sub_district
deriving DecidableEq, Fintype, Repr

/-- The fixed significance order of the four levels. -/
def levelOrder : List Level :=
  [Level.province, Level.city, Level.district, Level.sub_district]

/-- Index of a level in the significance order (0 = most significant). -/
def sigRank : Level → Nat
  | Level.province => 0
  | Level.city => 1
  | Level.district => 2
  | Level.sub_district => 3

/-- The command-line arguments the script consumes (lines 364-374):
four optional fact-table column names and four optional static values.
`none` models an argument that was not supplied; `some s` models a
supplied string (argparse never yields an empty-vs-missing distinction,
but Python truthiness treats an empty string like a missing one, which
`truthy` below captures). -/
structure Args where
  province_col : Option String
  city_col : Option String
  district_col : Option String
  subdistrict_col : Option String
  province : Option String
  city : Option String
  district : Option String
  subdistrict : Option String
deriving DecidableEq, Repr

/-- Python truthiness of an optional string: `None` and the empty string
are falsy, every other string is truthy (`bool(args.province_col)`). -/
def truthy : Option String → Bool
  | none => false
  | some s => !(s == ("" : String))

/-- The fact-table column name configured for a level. -/
def colOf (a : Args) : Level → Option String
  | Level.province => a.province_col
  | Level.city => a.city_col
  | Level.district => a.district_col
  | Level.sub_district => a.subdistrict_col

/-- The static value configured for a level. -/
def valOf (a : Args) : Level → Option String
  | Level.province => a.province
  | Level.city => a.city
  | Level.district => a.district
  | Level.sub_district => a.subdistrict

/-- The hierarchy loop of `validate_hierarchy` (lines 330-343): for each
level after province that has a column, every more-significant level
must have a column or a value. -/
def upperOk (hc hv : Level → Bool) : Bool :=
  levelOrder.enum.all fun p =>
    p.1 == 0 || !(hc p.2) ||
      (levelOrder.take p.1).all fun u => hc u || hv u

/-- `validate_hierarchy` (lines 291-346) expressed over the truthiness
maps `has_column` / `has_value`.  The two early-return special cases of
the source (province column only, lines 316-320; province value plus
city column only, lines 323-327) are kept verbatim before the general
hierarchy loop. -/
def validateFlags (hc hv : Level → Bool) : Bool :=
  if !(levelOrder.any hc || levelOrder.any hv) then
    false
  else if hc Level.province &&
      !(hc Level.city || hc Level.district || hc Level.sub_district ||
        hv Level.province || hv Level.city || hv Level.district ||
        hv Level.sub_district) then
    true
  else if hv Level.province && hc Level.city &&
      !(hc Level.province || hc Level.district || hc Level.sub_district ||
        hv Level.city || hv Level.district || hv Level.sub_district) then
    true
  else
    upperOk hc hv

/-- `validate_hierarchy(args)` (lines 291-346): builds the
`has_column` / `has_value` truthiness maps from the arguments and runs
the checks. -/
def validate_hierarchy (a : Args) : Bool :=
  validateFlags (fun l => truthy (colOf a l)) (fun l => truthy (valOf a l))

/-- A row of the fact table: a mapping from column name to optional
value (`none` is SQL NULL). -/
abbrev FactRow := String → Option String

/-- A location tuple: for each hierarchy level an optional string value.
Levels not selected by the extraction query are `none`; Column levels
may also be `none`-free thanks to the IS NOT NULL filter. -/
abbrev LocTuple := Level → Option String

/-- The value a fact row yields for a level, through the configured
column name (`none` when the level has no configured column). -/
def factVal (r : FactRow) (a : Args) (l : Level) : Option String :=
  match colOf a l with
  | some c => r c
  | none => none

/-- The levels whose spec is a fact-table column, in significance
order; these are the `available_columns` of lines 44-55. -/
def queryableLevels (a : Args) : List Level :=
  levelOrder.filter fun l => truthy (colOf a l)

/-- The location tuple selected from one fact row: the configured
column value at each queryable level, `none` elsewhere (the SELECT list
of lines 71-77 aliases each configured column to its level name). -/
def tupleOfRow (a : Args) (r : FactRow) : LocTuple :=
  fun l => if truthy (colOf a l) then factVal r a l else none

/-- First-occurrence deduplication, modelling SELECT DISTINCT. -/
def distinctAux [DecidableEq α] : List α → List α → List α
  | [], _ => []
  | x :: xs, seen =>
      if x ∈ seen then distinctAux xs seen else x :: distinctAux xs (x :: seen)

/-- SELECT DISTINCT over a list of already-projected rows. -/
def distinct [DecidableEq α] (xs : List α) : List α :=
  distinctAux xs []

/-- Overwrite one level of a tuple (the `df["province"] = value`
assignments of lines 94-108 set the level on every row). -/
def setLevel (t : LocTuple) (l : Level) (v : Option String) : LocTuple :=
  fun c => if c = l then v else t c

/-- The static-value backfill of lines 93-108: for each level in
significance order, if a truthy static value is configured and the
level is not among the available (queryable) columns, set that level to
the static value on every row and append the level to the returned
column list.  The source writes this as four sequential `if`s; here it
is the same four steps as a recursion over `levelOrder`. -/
def applyStatics (a : Args) (qs : List Level) :
    List Level → List LocTuple × List Level → List LocTuple × List Level
  | [], p => p
  | l :: ls, (df, cs) =>
      if truthy (valOf a l) = true ∧ l ∉ qs then
        applyStatics a qs ls
          (df.map (fun t => setLevel t l (valOf a l)), cs ++ [l])
      else
        applyStatics a qs ls (df, cs)

/-- Error message of line 60. -/
def noInputMsg : String :=
  "Error: You must provide at least one column from the fact table or one static value"

/-- Error message of lines 112-113 (extraction query failure). -/
def fetchErrMsg : String :=
  "Error fetching distinct locations"

/-- `fetch_distinct_locations` (lines 32-114).  The fact table is a
list of rows; `qfail` is the oracle for `pd.read_sql` raising (table
missing, connectivity loss, ...), which the source turns into a printed
error plus `sys.exit(1)` — modelled as `Except.error`.  On success the
result is the distinct tuple list and the active column (level) list:
queryable levels first, then backfilled static levels. -/
def fetch_distinct_locations (a : Args) (ft : List FactRow) (qfail : Bool) :
    Except String (List LocTuple × List Level) :=
  let qs := queryableLevels a
  if qs.isEmpty ∧ ¬ (levelOrder.any fun l => truthy (valOf a l)) = true then
    Except.error noInputMsg
  else if qfail then
    Except.error fetchErrMsg
  else
    let df : List LocTuple :=
      if qs.isEmpty then
        [fun _ => none]
      else
        distinct ((ft.filter
          (fun r => qs.all fun l => (factVal r a l).isSome)).map
          (tupleOfRow a))
    Except.ok (applyStatics a qs levelOrder (df, qs))

/-- A row of the master table `indonesia_boundaries`: the identifier
plus the four boundary-name columns (nullable). -/
structure MasterRow where
  objectid : String
  provinsi : Option String
  kota_kabupaten : Option String
  kecamatan : Option String
  kelurahan_desa : Option String
deriving DecidableEq, Repr

/-- The fixed `column_mapping` of lines 125-130. -/
def dbColName : Level → String
  | Level.province => "provinsi"
  | Level.city => "kota_kabupaten"
  | Level.district => "kecamatan"
  | Level.sub_district => "kelurahan_desa"

/-- The master-table column a level maps to, as a field accessor. -/
def masterCol (m : MasterRow) : Level → Option String
  | Level.province => m.provinsi
  | Level.city => m.kota_kabupaten
  | Level.district => m.kecamatan
  | Level.sub_district => m.kelurahan_desa

/-- A single-quote character, used when rendering SQL literals. -/
def squote : String :=
  String.singleton (Char.ofNat 39)

/-- The quote-escaping of line 144: each single quote in a value is
doubled before interpolation into the SQL text. -/
def escapeQuotes (v : String) : String :=
  v.replace squote (squote ++ squote)

/-- One rendered filter condition of line 146:
LOWER(db_col) = LOWER(escaped value). -/
def condText (c : Level) (v : String) : String :=
  "LOWER(" ++ dbColName c ++ ") = LOWER(" ++ squote ++ escapeQuotes v ++
    squote ++ ")"

/-- The `select_columns` list of lines 133-136: objectid first, then
the mapped master columns of the active levels in `columns` order
(every level is in the mapping, so the `if col in column_mapping`
guard of line 135 always holds). -/
def selectColumnsFor (cols : List Level) : List String :=
  "objectid" :: cols.map dbColName

/-- The literal `lookup_sql` text of lines 151-156 for one tuple. -/
def lookupSqlFor (cols : List Level) (conds : List (Level × String)) :
    String :=
  "SELECT " ++ String.intercalate (", ") (selectColumnsFor cols) ++
    " FROM indonesia_boundaries WHERE " ++
    String.intercalate (" AND ") (conds.map fun p => condText p.1 p.2) ++
    " LIMIT 1"

/-- The filter conditions built for one tuple (lines 140-146): one
condition per active level whose value in the tuple is non-null
(`pd.notna`); null levels are omitted.  Each condition carries the
level and the raw value (the SQL rendering escapes quotes, which the
database unescapes again, so the compared value is the raw one).  The
`col in row` test of line 142 always holds because extraction produces
rows carrying every column of `columns`. -/
def tupleConditions (cols : List Level) (row : LocTuple) :
    List (Level × String) :=
  cols.filterMap fun c => (row c).map fun v => (c, v)

/-- SQL LOWER, modelled character-wise. -/
def lowerStr (s : String) : String :=
  String.mk (s.data.map Char.toLower)

/-- Whether a master row satisfies a rendered condition list:
`LOWER(col) = LOWER(value)` holds when the master column is non-null
and equal to the value up to lowercasing (a NULL master column never
satisfies an SQL equality). -/
def rowMatches (m : MasterRow) (conds : List (Level × String)) : Bool :=
  conds.all fun p =>
    match masterCol m p.1 with
    | some mv => lowerStr mv == lowerStr p.2
    | none => false

/-- A resolved location: the master identifier plus, for each level,
the value the lookup projected (the `result_dict` of lines 166-171). -/
structure Resolved where
  location_id : String
  vals : LocTuple

/-- The `result_dict` built from a returned master row (lines 166-173):
`location_id` is the objectid; each level in `columns` gets the value
the query projected from the master row.  The fallback of line 171
(`row.get(col)`) is unreachable: the result tuple always has
`1 + columns.length` entries, so the index bound of line 168 always
holds. -/
def mkResolved (cols : List Level) (m : MasterRow) : Resolved :=
  { location_id := m.objectid
    vals := fun l => if l ∈ cols then masterCol m l else none }

/-- The resolver's observable console output: the warning of line 175
for a tuple with no master match, and the per-tuple error report of
lines 177-178 (the caught exception plus the literal query text). -/
inductive LogEvent where
  | warnNoMatch (t : LocTuple)
  | queryError (t : LocTuple) (sql : String)

/-- `lookup_location_ids` (lines 116-181), per-tuple loop.  `master` is
the content of `indonesia_boundaries`; `qerr t = true` models
`cursor.execute` raising for that tuple's query (the except branch of
lines 176-178).  Returns the resolved locations in input order together
with the emitted warnings/errors in input order.  A tuple whose
condition list is empty is skipped before any query (lines 148-149);
LIMIT 1 takes the first matching master row. -/
def lookup_location_ids (master : List MasterRow) (qerr : LocTuple → Bool)
    (cols : List Level) : List LocTuple → List Resolved × List LogEvent
  | [] => ([], [])
  | t :: rest =>
      let p := lookup_location_ids master qerr cols rest
      let conds := tupleConditions cols t
      if conds.isEmpty then
        p
      else if qerr t then
        (p.1, LogEvent.queryError t (lookupSqlFor cols conds) :: p.2)
      else
        match (master.filter fun m => rowMatches m conds).head? with
        | some m => (mkResolved cols m :: p.1, p.2)
        | none => (p.1, LogEvent.warnNoMatch t :: p.2)

/-- A row to be inserted into geo_ref: the ordered value list passed to
`cursor.execute` (location_id first, then one value per active level). -/
abbrev GeoRow := List (Option String)

/-- The levels for which `insert_into_geo_ref` (and
`create_geo_ref_table`) emit a destination column: those with a truthy
column argument or a truthy static value, in significance order. -/
def activeLevels (a : Args) : List Level :=
  levelOrder.filter fun l => truthy (colOf a l) || truthy (valOf a l)

/-- The value list built for one resolved location (lines 264-277):
location_id first; then for each level guarded by
`args.<level>_col or args.<level>`, the resolver's value
(`loc.get(level)`) when a column argument is present, else the static
value.  The source writes the four guards as sequential `if`s, unrolled
here identically. -/
def rowValues (a : Args) (loc : Resolved) : GeoRow :=
  let v0 : GeoRow := [some loc.location_id]
  let v1 : GeoRow :=
    if truthy a.province_col || truthy a.province then
      v0 ++ [if truthy a.province_col then loc.vals Level.province
             else a.province]
    else v0
  let v2 : GeoRow :=
    if truthy a.city_col || truthy a.city then
      v1 ++ [if truthy a.city_col then loc.vals Level.city else a.city]
    else v1
  let v3 : GeoRow :=
    if truthy a.district_col || truthy a.district then
      v2 ++ [if truthy a.district_col then loc.vals Level.district
             else a.district]
    else v2
  let v4 : GeoRow :=
    if truthy a.subdistrict_col || truthy a.subdistrict then
      v3 ++ [if truthy a.subdistrict_col then loc.vals Level.sub_district
             else a.subdistrict]
    else v3
  v4

/-- The insert loop of lines 262-279: rows are executed one at a time
inside a single transaction; `fail r = true` models `cursor.execute`
raising on that row.  `some pending` means every execute succeeded and
`pending` is the uncommitted batch; `none` means some row raised, in
which case nothing of the batch survives (the source then rolls back). -/
def execLoop (fail : GeoRow → Bool) :
    List GeoRow → List GeoRow → Option (List GeoRow)
  | [], pending => some pending
  | r :: rs, pending =>
      if fail r then none else execLoop fail rs (pending ++ [r])

/-- `insert_into_geo_ref` (lines 227-289) acting on the committed
content of geo_ref.  With no locations it returns immediately (lines
231-233).  Otherwise each row is executed; on the first failure the
transaction is rolled back — the committed content is unchanged — and
the flag `true` reports the `sys.exit(1)` of line 289.  If every row
succeeds the batch is committed and appended. -/
def insert_into_geo_ref (a : Args) (locs : List Resolved)
    (fail : GeoRow → Bool) (committed : List GeoRow) :
    List GeoRow × Bool :=
  if locs.isEmpty then
    (committed, false)
  else
    match execLoop fail (locs.map (rowValues a)) [] with
    | some pending => (committed ++ pending, false)
    | none => (committed, true)

/-- Connection lifecycle events observable during a run.  The fact
connection (opened in `main`, lines 383-401, also used for the
destination) and the master connection (opened inside
`lookup_location_ids`, line 121). -/
inductive Event where
  | openFact
  | closeFact
  | openMaster
  | closeMaster
deriving DecidableEq, Repr

/-- The failure oracles for the externally-fallible steps of one run. -/
structure Oracles where
  /-- `pd.read_sql` raising during extraction (lines 111-114). -/
  qfailFetch : Bool
  /-- `connect_to_db` failing for the master connection (line 121 via
  lines 28-30): `sys.exit(1)` before any tuple is processed. -/
  masterConnFail : Bool
  /-- per-tuple `cursor.execute` raising during lookup (lines 176-178). -/
  lookupFail : LocTuple → Bool
  /-- DDL failure in `create_geo_ref_table` (lines 222-225). -/
  ddlFail : Bool
  /-- per-row insert failure (lines 284-289). -/
  insertFail : GeoRow → Bool

/-- Outcome of one run of `main`. -/
structure RunResult where
  exitCode : Nat
  events : List Event
  geoRef : List GeoRow
  logs : List LogEvent

/-- `main` (lines 348-431) after argument parsing, with the fact
connection assumed to open successfully: validate; open the fact
connection; extract (fatal error exits without closing the fact
connection); open the master connection (a connect failure exits
without closing the fact connection), run the per-tuple lookups, close
the master connection (line 180); create the geo_ref table (DDL failure
exits without closing the fact connection); insert (failure rolls back
and exits without closing the fact connection); close the fact
connection (line 430) and finish with exit code 0. -/
def runMain (a : Args) (ft : List FactRow) (master : List MasterRow)
    (o : Oracles) (committed : List GeoRow) : RunResult :=
  if ¬ validate_hierarchy a = true then
    { exitCode := 1, events := [], geoRef := committed, logs := [] }
  else
    match fetch_distinct_locations a ft o.qfailFetch with
    | Except.error _ =>
        { exitCode := 1, events := [Event.openFact], geoRef := committed
          logs := [] }
    | Except.ok (tuples, cols) =>
        if o.masterConnFail then
          { exitCode := 1, events := [Event.openFact], geoRef := committed
            logs := [] }
        else
          let lk := lookup_location_ids master o.lookupFail cols tuples
          if o.ddlFail then
            { exitCode := 1
              events := [Event.openFact, Event.openMaster, Event.closeMaster]
              geoRef := committed, logs := lk.2 }
          else
            match insert_into_geo_ref a lk.1 o.insertFail committed with
            | (g, true) =>
                { exitCode := 1
                  events := [Event.openFact, Event.openMaster,
                             Event.closeMaster]
                  geoRef := g, logs := lk.2 }
            | (g, false) =>
                { exitCode := 0
                  events := [Event.openFact, Event.openMaster,
                             Event.closeMaster, Event.closeFact]
                  geoRef := g, logs := lk.2 }

/-- A concrete argument set used in witnesses: only a static province
value is supplied. -/
def wArgs : Args :=
  { province_col := none, city_col := none, district_col := none,
    subdistrict_col := none, province := some ("Jawa Barat"),
    city := none, district := none, subdistrict := none }

/-- Oracles under which every external step succeeds. -/
def wOraclesOk : Oracles :=
  { qfailFetch := false, masterConnFail := false,
    lookupFail := fun _ => false, ddlFail := false,
    insertFail := fun _ => false }

/-- A one-row master table matching the witness arguments
case-insensitively. -/
def wMaster : List MasterRow :=
  [{ objectid := "31", provinsi := some ("jawa barat"),
     kota_kabupaten := none, kecamatan := none, kelurahan_desa := none }]

/-- Oracles under which every per-row insert fails. -/
def wOraclesIns : Oracles :=
  { wOraclesOk with insertFail := fun _ => true }

/-- The single tuple the witness arguments extract. -/
def wTuple : LocTuple :=
  fun l => if l = Level.province then some ("Jawa Barat") else none

/-- The same arguments with the static value for one level removed. -/
def clearStatic (a : Args) : Level → Args
  | Level.province => { a with province := none }
  | Level.city => { a with city := none }
  | Level.district => { a with district := none }
  | Level.sub_district => { a with subdistrict := none }

/-- Arguments supplying both a column and a static value for the
province level. -/
def wArgsBoth : Args :=
  { province_col := some ("prov"), city_col := none, district_col := none,
    subdistrict_col := none, province := some ("Static Province"),
    city := none, district := none, subdistrict := none }

/-- A one-row fact table for the witness of column precedence. -/
def wFt : List FactRow :=
  [fun c => if c = "prov" then some ("Bandung") else none]

/-- Oracles whose only failure is the destination-table DDL. -/
def wOraclesDdl : Oracles :=
  { wOraclesOk with ddlFail := true }

theorem validateFlags_char :
    ∀ hc hv : Level → Bool,
      validateFlags hc hv = true ↔
        ((∃ l, hc l = true ∨ hv l = true) ∧
         ∀ l, hc l = true → ∀ u, sigRank u < sigRank l →
           (hc u = true ∨ hv u = true)) := by
  decide

theorem mem_levelOrder (l : Level) : l ∈ levelOrder := by
  cases l <;> decide

theorem execLoop_noFail (fail : GeoRow → Bool) (h : ∀ r, fail r = false) :
    ∀ rows pending, execLoop fail rows pending = some (pending ++ rows) := by
  intro rows
  induction rows with
  | nil => intro pending; simp [execLoop]
  | cons r rs ih =>
      intro pending
      simp [execLoop, h r, ih (pending ++ [r])]

theorem execLoop_fail (fail : GeoRow → Bool) :
    ∀ rows pending, (∃ r ∈ rows, fail r = true) →
      execLoop fail rows pending = none := by
  intro rows
  induction rows with
  | nil => intro pending h; simp at h
  | cons r rs ih =>
      intro pending h
      by_cases hr : fail r = true
      · simp [execLoop, hr]
      · have : ∃ x ∈ rs, fail x = true := by
          obtain ⟨x, hx, hfx⟩ := h
          rcases List.mem_cons.mp hx with rfl | hx
          · exact absurd hfx hr
          · exact ⟨x, hx, hfx⟩
        simp [execLoop, hr, ih (pending ++ [r]) this]

theorem insert_noFail (a : Args) (locs : List Resolved)
    (fail : GeoRow → Bool) (committed : List GeoRow)
    (h : ∀ r, fail r = false) :
    ∃ g, insert_into_geo_ref a locs fail committed = (g, false) := by
  unfold insert_into_geo_ref
  by_cases hl : locs.isEmpty
  · exact ⟨committed, by simp [hl]⟩
  · refine ⟨committed ++ locs.map (rowValues a), ?_⟩
    simp [hl, execLoop_noFail fail h]

theorem queryableLevels_eq_nil (a : Args)
    (h : ∀ l, truthy (colOf a l) = false) : queryableLevels a = [] := by
  unfold queryableLevels
  rw [List.filter_eq_nil_iff]
  intro l _
  simp [h l]

theorem noInput_guard_false (a : Args)
    (hex : ∃ l, truthy (colOf a l) = true ∨ truthy (valOf a l) = true) :
    ¬ ((queryableLevels a).isEmpty ∧
        ¬ (levelOrder.any fun l => truthy (valOf a l)) = true) := by
  rintro ⟨h1, h2⟩
  obtain ⟨l, hl | hl⟩ := hex
  · have hmem : l ∈ queryableLevels a :=
      List.mem_filter.mpr ⟨mem_levelOrder l, hl⟩
    rw [List.isEmpty_iff] at h1
    simp [h1] at hmem
  · exact h2 (List.any_eq_true.mpr ⟨l, mem_levelOrder l, hl⟩)

theorem fetch_distinct_ok (a : Args) (ft : List FactRow)
    (hex : ∃ l, truthy (colOf a l) = true ∨ truthy (valOf a l) = true) :
    ∃ p, fetch_distinct_locations a ft false = Except.ok p := by
  unfold fetch_distinct_locations
  rw [if_neg (noInput_guard_false a hex), if_neg (by simp : ¬ false = true)]
  exact ⟨_, rfl⟩

/-- C1: `validate_hierarchy` succeeds iff at least one of the four
levels has a column or a static value, and every level supplied as a
column has every more-significant level supplied as a column or a
static value; otherwise it fails. -/
theorem validate_hierarchy_correct :
    ∀ a : Args,
      validate_hierarchy a = true ↔
        ((∃ l, truthy (colOf a l) = true ∨ truthy (valOf a l) = true) ∧
         ∀ l, truthy (colOf a l) = true → ∀ u, sigRank u < sigRank l →
           (truthy (colOf a u) = true ∨ truthy (valOf a u) = true)) := by
  intro a
  exact validateFlags_char (fun l => truthy (colOf a l))
    (fun l => truthy (valOf a l))

theorem insert_fail_rollback (a : Args) (locs : List Resolved)
    (fail : GeoRow → Bool) (committed : List GeoRow)
    (h : ∃ r ∈ locs.map (rowValues a), fail r = true) :
    insert_into_geo_ref a locs fail committed = (committed, true) := by
  have hne : ¬ locs.isEmpty = true := by
    intro he
    rw [List.isEmpty_iff] at he
    subst he
    simp at h
  simp [insert_into_geo_ref, hne,
    execLoop_fail fail (locs.map (rowValues a)) [] h]

/-- C5: if any single-row insert into geo_ref fails, the whole batch is
rolled back — the committed content of geo_ref is exactly what it was
before — and the run exits non-zero (exit code 1). -/
theorem insert_failure_is_atomic :
    (∀ (a : Args) (locs : List Resolved) (fail : GeoRow → Bool)
       (committed : List GeoRow),
       (∃ r ∈ locs.map (rowValues a), fail r = true) →
       insert_into_geo_ref a locs fail committed = (committed, true)) ∧
    (∀ (a : Args) (ft : List FactRow) (master : List MasterRow)
       (o : Oracles) (c : List GeoRow) (tuples : List LocTuple)
       (cols : List Level),
       validate_hierarchy a = true →
       o.qfailFetch = false →
       o.masterConnFail = false →
       o.ddlFail = false →
       fetch_distinct_locations a ft false = Except.ok (tuples, cols) →
       (∃ r ∈ (lookup_location_ids master o.lookupFail cols
           tuples).1.map (rowValues a), o.insertFail r = true) →
       (runMain a ft master o c).exitCode = 1 ∧
         (runMain a ft master o c).geoRef = c) := by
  constructor
  · exact insert_fail_rollback
  · intro a ft master o c tuples cols hval hq hm hd hfetch hbad
    unfold runMain
    rw [if_neg (by simp [hval]), hq, hfetch]
    simp only
    rw [if_neg (by simp [hm]), if_neg (by simp [hd])]
    rw [insert_fail_rollback a _ o.insertFail c hbad]
    exact ⟨rfl, rfl⟩

theorem insert_failure_is_atomic_witness :
    ((∃ r ∈ ([⟨"31", wTuple⟩] : List Resolved).map (rowValues wArgs),
        (fun _ => true : GeoRow → Bool) r = true) ∧
     insert_into_geo_ref wArgs ([⟨"31", wTuple⟩] : List Resolved)
         (fun _ => true) [] = ([], true)) ∧
    (validate_hierarchy wArgs = true ∧
     fetch_distinct_locations wArgs [] false =
       Except.ok ([wTuple], [Level.province]) ∧
     (∃ r ∈ (lookup_location_ids wMaster wOraclesIns.lookupFail
         [Level.province] [wTuple]).1.map (rowValues wArgs),
        wOraclesIns.insertFail r = true) ∧
     (runMain wArgs [] wMaster wOraclesIns []).exitCode = 1 ∧
     (runMain wArgs [] wMaster wOraclesIns []).geoRef = []) := by
  constructor
  · exact ⟨⟨rowValues wArgs ⟨"31", wTuple⟩, by simp, rfl⟩,
      insert_failure_is_atomic.1 wArgs ([⟨"31", wTuple⟩] : List Resolved)
        (fun _ => true) []
        ⟨rowValues wArgs ⟨"31", wTuple⟩, by simp, rfl⟩⟩
  · refine ⟨by decide, rfl, ?_, ?_⟩
    · exact ⟨rowValues wArgs (mkResolved [Level.province]
        { objectid := "31", provinsi := some ("jawa barat"),
          kota_kabupaten := none, kecamatan := none,
          kelurahan_desa := none }), by decide, rfl⟩
    · exact insert_failure_is_atomic.2 wArgs [] wMaster wOraclesIns []
        [wTuple] [Level.province] (by decide) rfl rfl rfl rfl
        ⟨rowValues wArgs (mkResolved [Level.province]
          { objectid := "31", provinsi := some ("jawa barat"),
            kota_kabupaten := none, kecamatan := none,
            kelurahan_desa := none }), by decide, rfl⟩

theorem applyStatics_single (a : Args) :
    ∀ (ls : List Level) (t : LocTuple) (cs : List Level),
      applyStatics a [] ls ([t], cs) =
        ([fun l => if l ∈ ls ∧ truthy (valOf a l) = true then valOf a l
                   else t l],
         cs ++ ls.filter fun l => truthy (valOf a l)) := by
  intro ls
  induction ls with
  | nil =>
      intro t cs
      simp only [applyStatics, List.filter_nil, List.append_nil]
      refine Prod.ext ?_ rfl
      simp only [List.cons.injEq, and_true]
      funext l
      simp
  | cons x xs ih =>
      intro t cs
      by_cases hx : truthy (valOf a x) = true
      · rw [show applyStatics a [] (x :: xs) ([t], cs) =
            applyStatics a [] xs
              ([setLevel t x (valOf a x)], cs ++ [x]) from by
            simp [applyStatics, hx]]
        rw [ih (setLevel t x (valOf a x)) (cs ++ [x])]
        refine Prod.ext ?_ ?_
        · simp only [List.cons.injEq, and_true]
          funext l
          by_cases hmem : l ∈ xs ∧ truthy (valOf a l) = true
          · rw [if_pos hmem,
              if_pos ⟨List.mem_cons_of_mem x hmem.1, hmem.2⟩]
          · rw [if_neg hmem]
            unfold setLevel
            by_cases hlx : l = x
            · subst hlx
              rw [if_pos rfl, if_pos ⟨List.mem_cons_self l xs, hx⟩]
            · rw [if_neg hlx, if_neg]
              rintro ⟨hin, htr⟩
              rcases List.mem_cons.mp hin with rfl | hin
              · exact hlx rfl
              · exact hmem ⟨hin, htr⟩
        · simp [List.filter_cons, hx, List.append_assoc]
      · rw [show applyStatics a [] (x :: xs) ([t], cs) =
            applyStatics a [] xs ([t], cs) from by
            simp [applyStatics, hx]]
        rw [ih t cs]
        refine Prod.ext ?_ ?_
        · simp only [List.cons.injEq, and_true]
          funext l
          by_cases hmem : l ∈ xs ∧ truthy (valOf a l) = true
          · rw [if_pos hmem, if_pos ⟨List.mem_cons_of_mem x hmem.1, hmem.2⟩]
          · rw [if_neg hmem, if_neg]
            rintro ⟨hin, htr⟩
            rcases List.mem_cons.mp hin with rfl | hin
            · exact hx htr
            · exact hmem ⟨hin, htr⟩
        · simp [List.filter_cons, hx]

/-- C3: with no column levels, at least one static value and a
non-empty fact table, extraction returns exactly one tuple, carrying
exactly the configured static values at the active levels (and null
elsewhere), the active levels being those with a static value. -/
theorem static_only_extraction_single_tuple (a : Args) (ft : List FactRow)
    (hcols : ∀ l, truthy (colOf a l) = false)
    (hvals : ∃ l, truthy (valOf a l) = true)
    (_hft : ¬ ft = []) :
    fetch_distinct_locations a ft false =
      Except.ok
        ([fun l => if truthy (valOf a l) = true then valOf a l else none],
         levelOrder.filter fun l => truthy (valOf a l)) := by
  have hqs : queryableLevels a = [] := queryableLevels_eq_nil a hcols
  obtain ⟨l0, hl0⟩ := hvals
  unfold fetch_distinct_locations
  rw [if_neg (noInput_guard_false a ⟨l0, Or.inr hl0⟩),
    if_neg (by simp : ¬ false = true)]
  simp only [hqs, List.isEmpty_nil]
  rw [if_pos trivial]
  rw [applyStatics_single a levelOrder (fun _ => none) []]
  refine congrArg Except.ok (Prod.ext ?_ rfl)
  simp only [List.cons.injEq, and_true]
  funext l
  simp [mem_levelOrder l]

theorem static_only_extraction_single_tuple_witness :
    ((∀ l, truthy (colOf wArgs l) = false) ∧
     (∃ l, truthy (valOf wArgs l) = true) ∧
     ¬ ([fun _ => some ("row")] : List FactRow) = [] ∧
     fetch_distinct_locations wArgs [fun _ => some ("row")] false =
       Except.ok
         ([fun l => if truthy (valOf wArgs l) = true then valOf wArgs l
                    else none],
          levelOrder.filter fun l => truthy (valOf wArgs l))) :=
  ⟨by decide, ⟨Level.province, by decide⟩, by simp,
   static_only_extraction_single_tuple wArgs [fun _ => some ("row")]
     (by decide) ⟨Level.province, by decide⟩ (by simp)⟩

theorem colOf_clearStatic (a : Args) (l : Level) :
    colOf (clearStatic a l) = colOf a := by
  cases l <;> (funext x; cases x <;> rfl)

theorem valOf_clearStatic_ne (a : Args) (l x : Level) (h : ¬ x = l) :
    valOf (clearStatic a l) x = valOf a x := by
  cases l <;> cases x <;> first | rfl | exact absurd rfl h

theorem applyStatics_congr (a a' : Args) (qs : List Level)
    (hv : ∀ x, x ∉ qs → valOf a x = valOf a' x) :
    ∀ (ls : List Level) (p : List LocTuple × List Level),
      applyStatics a qs ls p = applyStatics a' qs ls p := by
  intro ls
  induction ls with
  | nil => intro p; rfl
  | cons x xs ih =>
      rintro ⟨df, cs⟩
      by_cases hxq : x ∈ qs
      · rw [show applyStatics a qs (x :: xs) (df, cs) =
            applyStatics a qs xs (df, cs) from by
              simp [applyStatics, hxq]]
        rw [show applyStatics a' qs (x :: xs) (df, cs) =
            applyStatics a' qs xs (df, cs) from by
              simp [applyStatics, hxq]]
        exact ih (df, cs)
      · have hveq : valOf a x = valOf a' x := hv x hxq
        unfold applyStatics
        rw [hveq]
        by_cases hx : truthy (valOf a' x) = true ∧ x ∉ qs
        · rw [if_pos hx, if_pos hx]
          exact ih _
        · rw [if_neg hx, if_neg hx]
          exact ih _

theorem applyStatics_mem (a : Args) (qs : List Level) :
    ∀ (ls : List Level) (df : List LocTuple) (cs : List Level)
      (t : LocTuple), t ∈ (applyStatics a qs ls (df, cs)).1 →
      ∃ t0 ∈ df, ∀ x ∈ qs, t x = t0 x := by
  intro ls
  induction ls with
  | nil =>
      intro df cs t ht
      exact ⟨t, ht, fun x _ => rfl⟩
  | cons l ls ih =>
      intro df cs t ht
      by_cases hl : truthy (valOf a l) = true ∧ l ∉ qs
      · rw [show applyStatics a qs (l :: ls) (df, cs) =
            applyStatics a qs ls
              (df.map (fun u => setLevel u l (valOf a l)), cs ++ [l])
            from by simp [applyStatics, hl]] at ht
        obtain ⟨t1, ht1, hag⟩ := ih _ _ t ht
        obtain ⟨t0, ht0, rfl⟩ := List.mem_map.mp ht1
        refine ⟨t0, ht0, fun x hx => ?_⟩
        rw [hag x hx]
        unfold setLevel
        rw [if_neg]
        intro hxl
        exact hl.2 (hxl ▸ hx)
      · rw [show applyStatics a qs (l :: ls) (df, cs) =
            applyStatics a qs ls (df, cs) from by
              simp [applyStatics]
              intro h1 h2
              exact absurd ⟨h1, h2⟩ hl] at ht
        exact ih _ _ t ht

theorem distinctAux_subset [DecidableEq α] :
    ∀ (xs seen : List α) (t : α), t ∈ distinctAux xs seen → t ∈ xs := by
  intro xs
  induction xs with
  | nil => intro seen t ht; simp [distinctAux] at ht
  | cons x xs ih =>
      intro seen t ht
      unfold distinctAux at ht
      by_cases hx : x ∈ seen
      · rw [if_pos hx] at ht
        exact List.mem_cons_of_mem x (ih seen t ht)
      · rw [if_neg hx] at ht
        rcases List.mem_cons.mp ht with rfl | ht
        · exact List.mem_cons_self t xs
        · exact List.mem_cons_of_mem x (ih (x :: seen) t ht)

theorem distinct_subset [DecidableEq α] (xs : List α) (t : α)
    (h : t ∈ distinct xs) : t ∈ xs :=
  distinctAux_subset xs [] t h

/-- C7: when a level has both a fact-table column and a static value,
extraction behaves exactly as if the static value had not been supplied
(the static value is never applied to any row), and every extracted
tuple's value at that level is a per-row value of the configured column
from the fact table. -/
theorem column_takes_precedence_over_static (a : Args)
    (ft : List FactRow) (qfail : Bool) (l : Level)
    (h : truthy (colOf a l) = true) :
    fetch_distinct_locations a ft qfail =
      fetch_distinct_locations (clearStatic a l) ft qfail ∧
    (∀ res cols,
       fetch_distinct_locations a ft qfail = Except.ok (res, cols) →
       ∀ t ∈ res, ∃ r ∈ ft, t l = factVal r a l ∧
         (factVal r a l).isSome = true) := by
  have hlq : l ∈ queryableLevels a :=
    List.mem_filter.mpr ⟨mem_levelOrder l, h⟩
  have hg1 : ¬ ((queryableLevels a).isEmpty ∧
      ¬ (levelOrder.any fun x => truthy (valOf a x)) = true) := by
    rintro ⟨h1, _⟩
    rw [List.isEmpty_iff] at h1
    rw [h1] at hlq
    simp at hlq
  have hco : colOf (clearStatic a l) = colOf a := colOf_clearStatic a l
  have hq : queryableLevels (clearStatic a l) = queryableLevels a := by
    unfold queryableLevels
    rw [hco]
  have htor : tupleOfRow (clearStatic a l) = tupleOfRow a := by
    funext r x
    unfold tupleOfRow factVal
    rw [hco]
  have hfv : ∀ r x, factVal r (clearStatic a l) x = factVal r a x := by
    intro r x
    unfold factVal
    rw [hco]
  have hg1s : ¬ ((queryableLevels (clearStatic a l)).isEmpty ∧
      ¬ (levelOrder.any fun x =>
          truthy (valOf (clearStatic a l) x)) = true) := by
    rw [hq]
    rintro ⟨h1, _⟩
    rw [List.isEmpty_iff] at h1
    rw [h1] at hlq
    simp at hlq
  constructor
  · unfold fetch_distinct_locations
    rw [if_neg hg1, if_neg hg1s]
    cases qfail with
    | true => rfl
    | false =>
        simp only [if_neg (by simp : ¬ false = true)]
        rw [hq, htor]
        simp only [hfv]
        exact congrArg Except.ok
          (applyStatics_congr a (clearStatic a l) (queryableLevels a)
            (fun x hx => by
              refine (valOf_clearStatic_ne a l x ?_).symm
              rintro rfl
              exact hx hlq)
            levelOrder _)
  · intro res cols hok t ht
    unfold fetch_distinct_locations at hok
    rw [if_neg hg1] at hok
    cases qfail with
    | true => exact absurd hok (by simp)
    | false =>
        rw [if_neg (by simp : ¬ false = true)] at hok
        have hqsne : ¬ (queryableLevels a).isEmpty = true := by
          intro h1
          rw [List.isEmpty_iff] at h1
          rw [h1] at hlq
          simp at hlq
        rw [if_neg hqsne] at hok
        have hres := congrArg Prod.fst (Except.ok.inj hok)
        simp only at hres
        rw [← hres] at ht
        obtain ⟨t0, ht0, hag⟩ :=
          applyStatics_mem a (queryableLevels a) levelOrder _ _ t ht
        have ht0' := distinct_subset _ t0 ht0
        obtain ⟨r, hr, rfl⟩ := List.mem_map.mp ht0'
        have hrf := List.mem_filter.mp hr
        refine ⟨r, hrf.1, ?_, ?_⟩
        · rw [hag l hlq]
          unfold tupleOfRow
          rw [if_pos h]
        · exact List.all_eq_true.mp hrf.2 l hlq

theorem column_takes_precedence_over_static_witness :
    truthy (colOf wArgsBoth Level.province) = true ∧
    (fetch_distinct_locations wArgsBoth wFt false =
       fetch_distinct_locations (clearStatic wArgsBoth Level.province)
         wFt false ∧
     (∀ res cols,
        fetch_distinct_locations wArgsBoth wFt false =
          Except.ok (res, cols) →
        ∀ t ∈ res, ∃ r ∈ wFt, t Level.province =
            factVal r wArgsBoth Level.province ∧
          (factVal r wArgsBoth Level.province).isSome = true)) :=
  ⟨by decide,
   column_takes_precedence_over_static wArgsBoth wFt false Level.province
     (by decide)⟩

/-- C8: a tuple whose active-level values are all null yields no
lookup, no output entry and no warning — the resolver's behaviour on
the remaining tuples is exactly as if the tuple were absent. -/
theorem lookup_skips_all_null_tuple (master : List MasterRow)
    (qerr : LocTuple → Bool) (cols : List Level) (t : LocTuple)
    (rest : List LocTuple) (h : ∀ c ∈ cols, t c = none) :
    lookup_location_ids master qerr cols (t :: rest) =
      lookup_location_ids master qerr cols rest := by
  have hc : tupleConditions cols t = [] := by
    unfold tupleConditions
    rw [List.filterMap_eq_nil_iff]
    intro c hcm
    rw [h c hcm]
    rfl
  simp [lookup_location_ids, hc]

theorem lookup_skips_all_null_tuple_witness :
    (∀ c ∈ [Level.province], (fun _ => none : LocTuple) c = none) ∧
    lookup_location_ids [] (fun _ => false) [Level.province]
        [(fun _ => none : LocTuple)] =
      lookup_location_ids [] (fun _ => false) [Level.province] [] :=
  ⟨by decide,
   lookup_skips_all_null_tuple [] (fun _ => false) [Level.province]
     (fun _ => none) [] (by decide)⟩

/-- C4: a tuple with no master match contributes exactly one warning
and no resolved entry, and the remaining tuples are processed exactly
as if it were absent; and a run in which every external step succeeds
finishes with exit code 0 regardless of how many tuples miss (misses
are excluded from insertion simply by never entering the resolved
list). -/
theorem miss_is_isolated :
    (∀ (master : List MasterRow) (qerr : LocTuple → Bool)
       (cols : List Level) (t : LocTuple) (rest : List LocTuple),
       qerr t = false →
       ¬ tupleConditions cols t = [] →
       (master.filter fun m => rowMatches m (tupleConditions cols t)) = [] →
       lookup_location_ids master qerr cols (t :: rest) =
         ((lookup_location_ids master qerr cols rest).1,
          LogEvent.warnNoMatch t ::
            (lookup_location_ids master qerr cols rest).2)) ∧
    (∀ (a : Args) (ft : List FactRow) (master : List MasterRow)
       (o : Oracles) (c : List GeoRow),
       validate_hierarchy a = true →
       o.qfailFetch = false →
       o.masterConnFail = false →
       o.ddlFail = false →
       (∀ r, o.insertFail r = false) →
       (runMain a ft master o c).exitCode = 0) := by
  constructor
  · intro master qerr cols t rest hq hne hfil
    simp [lookup_location_ids, List.isEmpty_iff, hne, hq, hfil]
  · intro a ft master o c hval hq hm hd hins
    have hex : ∃ l, truthy (colOf a l) = true ∨ truthy (valOf a l) = true :=
      ((validateFlags_char _ _).mp hval).1
    obtain ⟨p, hp⟩ := fetch_distinct_ok a ft hex
    unfold runMain
    rw [if_neg (by simp [hval]), hq, hp]
    obtain ⟨tuples, cols⟩ := p
    simp only
    rw [if_neg (by simp [hm])]
    rw [if_neg (by simp [hd])]
    obtain ⟨g, hg⟩ :=
      insert_noFail a
        (lookup_location_ids master o.lookupFail cols tuples).1
        o.insertFail c hins
    rw [hg]

theorem miss_is_isolated_witness :
    ((fun _ => false : LocTuple → Bool) (fun _ => some ("Jakarta")) = false ∧
     ¬ tupleConditions [Level.province]
         (fun _ => some ("Jakarta")) = [] ∧
     (([] : List MasterRow).filter fun m =>
         rowMatches m (tupleConditions [Level.province]
           (fun _ => some ("Jakarta")))) = [] ∧
     lookup_location_ids [] (fun _ => false) [Level.province]
         [(fun _ => some ("Jakarta") : LocTuple)] =
       (([] : List Resolved),
        [LogEvent.warnNoMatch (fun _ => some ("Jakarta"))])) ∧
    (validate_hierarchy wArgs = true ∧
     (runMain wArgs [] [] wOraclesOk []).exitCode = 0) := by
  constructor
  · refine ⟨rfl, by decide, rfl, ?_⟩
    have h := miss_is_isolated.1 [] (fun _ => false) [Level.province]
      (fun _ => some ("Jakarta")) [] rfl (by decide) rfl
    simpa [lookup_location_ids] using h
  · exact ⟨by decide,
      miss_is_isolated.2 wArgs [] [] wOraclesOk [] (by decide) rfl rfl rfl
        (fun _ => rfl)⟩

/-- C6: a query-execution error while looking up one tuple is caught,
logged together with the offending tuple and the literal query text,
and the remaining tuples are processed exactly as if the tuple were
absent — whereas an extraction-time query error makes
`fetch_distinct_locations` return the fatal error. -/
theorem query_error_recoverable_per_tuple :
    (∀ (master : List MasterRow) (qerr : LocTuple → Bool)
       (cols : List Level) (t : LocTuple) (rest : List LocTuple),
       ¬ tupleConditions cols t = [] →
       qerr t = true →
       lookup_location_ids master qerr cols (t :: rest) =
         ((lookup_location_ids master qerr cols rest).1,
          LogEvent.queryError t
              (lookupSqlFor cols (tupleConditions cols t)) ::
            (lookup_location_ids master qerr cols rest).2)) ∧
    (∀ (a : Args) (ft : List FactRow),
       (∃ l, truthy (colOf a l) = true ∨ truthy (valOf a l) = true) →
       fetch_distinct_locations a ft true = Except.error fetchErrMsg) := by
  constructor
  · intro master qerr cols t rest hne hq
    simp [lookup_location_ids, List.isEmpty_iff, hne, hq]
  · intro a ft hex
    unfold fetch_distinct_locations
    rw [if_neg (noInput_guard_false a hex), if_pos rfl]

theorem query_error_recoverable_per_tuple_witness :
    (¬ tupleConditions [Level.province] wTuple = [] ∧
     (fun _ => true : LocTuple → Bool) wTuple = true ∧
     lookup_location_ids [] (fun _ => true) [Level.province] [wTuple] =
       ([], [LogEvent.queryError wTuple
         (lookupSqlFor [Level.province]
           (tupleConditions [Level.province] wTuple))])) ∧
    ((∃ l, truthy (colOf wArgs l) = true ∨ truthy (valOf wArgs l) = true) ∧
     fetch_distinct_locations wArgs [] true = Except.error fetchErrMsg) := by
  constructor
  · refine ⟨by decide, rfl, ?_⟩
    have h := query_error_recoverable_per_tuple.1 [] (fun _ => true)
      [Level.province] wTuple [] (by decide) rfl
    simpa [lookup_location_ids] using h
  · exact ⟨⟨Level.province, Or.inr (by decide)⟩,
      query_error_recoverable_per_tuple.2 wArgs []
        ⟨Level.province, Or.inr (by decide)⟩⟩

/-- C2: the resolver's master-table filter for a tuple consists of one
condition per active level whose tuple value is non-null — nothing
else — and a master row satisfies it iff its mapped column equals the
tuple value case-insensitively at each such level; concretely, the
tuple (province = "JAWA BARAT") resolves against a master row with
provinsi = "jawa barat". -/
theorem lookup_filter_semantics :
    (∀ (cols : List Level) (t : LocTuple) (c : Level) (v : String),
       (c, v) ∈ tupleConditions cols t ↔ c ∈ cols ∧ t c = some v) ∧
    (∀ (cols : List Level) (t : LocTuple) (m : MasterRow),
       rowMatches m (tupleConditions cols t) = true ↔
         ∀ c ∈ cols, ∀ v, t c = some v →
           ∃ mv, masterCol m c = some mv ∧ lowerStr mv = lowerStr v) ∧
    lookup_location_ids
        [{ objectid := "32", provinsi := some ("jawa barat"),
           kota_kabupaten := none, kecamatan := none,
           kelurahan_desa := none }]
        (fun _ => false) [Level.province]
        [(fun l => if l = Level.province then some ("JAWA BARAT")
                   else none : LocTuple)] =
      ([mkResolved [Level.province]
         { objectid := "32", provinsi := some ("jawa barat"),
           kota_kabupaten := none, kecamatan := none,
           kelurahan_desa := none }], []) := by
  have hmem : ∀ (cols : List Level) (t : LocTuple) (c : Level) (v : String),
      (c, v) ∈ tupleConditions cols t ↔ c ∈ cols ∧ t c = some v := by
    intro cols t c v
    simp only [tupleConditions, List.mem_filterMap, Option.map_eq_some',
      Prod.mk.injEq]
    constructor
    · rintro ⟨x, hx, w, hw, rfl, rfl⟩
      exact ⟨hx, hw⟩
    · rintro ⟨hc, hv⟩
      exact ⟨c, hc, v, hv, rfl, rfl⟩
  refine ⟨hmem, ?_, rfl⟩
  intro cols t m
  rw [rowMatches, List.all_eq_true]
  constructor
  · intro h c hc v hv
    have := h (c, v) ((hmem cols t c v).mpr ⟨hc, hv⟩)
    revert this
    cases hcol : masterCol m c with
    | none => intro h0; exact absurd h0 (by simp)
    | some mv =>
        intro h0
        exact ⟨mv, rfl, by simpa using h0⟩
  · rintro h ⟨c, v⟩ hcv
    obtain ⟨hc, hv⟩ := (hmem cols t c v).mp hcv
    obtain ⟨mv, hmv, hlow⟩ := h c hc v hv
    simp [hmv, hlow]

theorem validate_hierarchy_correct_witness :
    validate_hierarchy wArgs = true ↔
      ((∃ l, truthy (colOf wArgs l) = true ∨
          truthy (valOf wArgs l) = true) ∧
       ∀ l, truthy (colOf wArgs l) = true → ∀ u, sigRank u < sigRank l →
         (truthy (colOf wArgs u) = true ∨ truthy (valOf wArgs u) = true)) :=
  validate_hierarchy_correct wArgs

theorem lookup_filter_semantics_witness :
    ((Level.province, "Jawa Barat") ∈
        tupleConditions [Level.province] wTuple ↔
      Level.province ∈ [Level.province] ∧
        wTuple Level.province = some ("Jawa Barat")) :=
  lookup_filter_semantics.1 [Level.province] wTuple Level.province
    ("Jawa Barat")

/-- C10: the row inserted into geo_ref carries, for each active level,
the resolver's value exactly when the level was supplied as a column
and the user-configured static value otherwise — so at a
static-value-only level the value the resolver obtained from the master
table is overridden at write time (changing it cannot change the
inserted row). -/
theorem static_value_overrides_at_write :
    (∀ (a : Args) (loc : Resolved),
       rowValues a loc = some loc.location_id ::
         ((activeLevels a).map fun l =>
           if truthy (colOf a l) then loc.vals l else valOf a l)) ∧
    (∀ (a : Args) (loc : Resolved) (l : Level) (w : Option String),
       truthy (valOf a l) = true → truthy (colOf a l) = false →
       rowValues a { location_id := loc.location_id,
                     vals := Function.update loc.vals l w } =
         rowValues a loc) := by
  constructor
  · intro a loc
    simp only [rowValues, activeLevels, levelOrder, colOf, valOf]
    by_cases h1 : (truthy a.province_col || truthy a.province) = true <;>
      by_cases h2 : (truthy a.city_col || truthy a.city) = true <;>
      by_cases h3 : (truthy a.district_col || truthy a.district) = true <;>
      by_cases h4 :
        (truthy a.subdistrict_col || truthy a.subdistrict) = true <;>
      simp [h1, h2, h3, h4]
  · intro a loc l w hv hc
    cases l <;>
      simp only [colOf] at hc <;>
      simp [rowValues, hc, Function.update]

theorem static_value_overrides_at_write_witness :
    (rowValues wArgs ⟨"31", wTuple⟩ = some "31" ::
      ((activeLevels wArgs).map fun l =>
        if truthy (colOf wArgs l) then wTuple l else valOf wArgs l)) ∧
    truthy (valOf wArgs Level.province) = true ∧
    truthy (colOf wArgs Level.province) = false ∧
    rowValues wArgs ⟨"31",
        Function.update wTuple Level.province (some ("OVERRIDDEN"))⟩ =
      rowValues wArgs ⟨"31", wTuple⟩ :=
  ⟨static_value_overrides_at_write.1 wArgs ⟨"31", wTuple⟩,
   by decide, by decide,
   static_value_overrides_at_write.2 wArgs ⟨"31", wTuple⟩ Level.province
     (some ("OVERRIDDEN")) (by decide) (by decide)⟩

/-- C9 counterexample: on a run that fails at geo_ref creation (DDL
failure), the fact/destination connection has been opened, the process
exits non-zero, and no close of the fact connection ever happens — so
it is not the case that every opened connection is closed on every
execution path. -/
theorem fact_connection_not_closed_on_fatal :
    Event.openFact ∈ (runMain wArgs [] [] wOraclesDdl []).events ∧
    (runMain wArgs [] [] wOraclesDdl []).exitCode = 1 ∧
    ¬ Event.closeFact ∈ (runMain wArgs [] [] wOraclesDdl []).events := by
  decide

/-- C9 (amended): the master connection, once opened, is closed on
every path (per-tuple lookup errors are caught before they can escape),
and on every run that completes successfully (exit code 0) both the
fact/destination connection and the master connection are opened and
closed; but on fatal early termination after the fact connection is
opened, that connection is not closed before the process exits. -/
theorem connections_closed_amended (a : Args) (ft : List FactRow)
    (master : List MasterRow) (o : Oracles) (c : List GeoRow) :
    (Event.openMaster ∈ (runMain a ft master o c).events →
      Event.closeMaster ∈ (runMain a ft master o c).events) ∧
    ((runMain a ft master o c).exitCode = 0 →
      Event.openFact ∈ (runMain a ft master o c).events ∧
      Event.closeFact ∈ (runMain a ft master o c).events ∧
      Event.openMaster ∈ (runMain a ft master o c).events ∧
      Event.closeMaster ∈ (runMain a ft master o c).events) := by
  unfold runMain
  split
  · simp
  · split
    · simp
    · split
      · simp
      · split
        · simp
        · dsimp only
          split <;> simp

theorem connections_closed_amended_witness :
    Event.openMaster ∈ (runMain wArgs [] [] wOraclesOk []).events ∧
    Event.closeMaster ∈ (runMain wArgs [] [] wOraclesOk []).events ∧
    (runMain wArgs [] [] wOraclesOk []).exitCode = 0 ∧
    Event.openFact ∈ (runMain wArgs [] [] wOraclesOk []).events ∧
    Event.closeFact ∈ (runMain wArgs [] [] wOraclesOk []).events := by
  have h := connections_closed_amended wArgs [] [] wOraclesOk []
  have hexit : (runMain wArgs [] [] wOraclesOk []).exitCode = 0 := by
    decide
  have h2 := h.2 hexit
  exact ⟨h2.2.2.1, h.1 h2.2.2.1, hexit, h2.1, h2.2.1⟩

end GeoMigration
